import Mathlib

/-!
A shallow embedding, in Lean 4, of the core of the rv32i-assembler project
(an RV32I assembler and emulator written in Python), together with proofs
about its behaviour.

Conventions used throughout:
* Python `int` is modelled as `Int` (arbitrary precision, no wrapping).
* Python `x & mask` for a power-of-two mask is `(x % 2^k)` on `Int`
  (Lean's `%` on `Int` is Euclidean, matching Python's nonnegative result),
  converted by `Int.toNat` where the source continues with bit operations.
* Python strings are Lean `String`s; the regular expressions of the source
  are translated into explicit character-level functions.
* Python exceptions are modelled by `Except PyErr`; each constructor of
  `PyErr` names the Python exception class it stands for.
* Python dicts that are used in insertion order are association lists.
-/

/-- Errors. The first group are `RV32IBaseException` subclasses defined in
`comm/exceptions.py`; the second group are Python built-in exceptions
(`KeyError`, `TypeError`, `AttributeError`, `IndexError`, `RuntimeError`),
which are *not* caught by `except RV32IBaseException` handlers. -/
inductive PyErr where
  | parseError
  | unknownAssembly
  | unimplemented
  | invalidRegister (reg : String)
  | invalidAddress (addr : Int)
  | numberFormat
  | launchDebugger
  | programNormalExit
  | keyError
  | typeError
  | attributeError
  | indexError
  | runtimeError
deriving DecidableEq, Repr

/-- Equality of modelled call results is decidable (used to evaluate the
model on concrete inputs). -/
instance {α β : Type} [DecidableEq α] [DecidableEq β] : DecidableEq (Except α β) :=
  fun a b =>
    match a, b with
    | .ok x, .ok y =>
      if h : x = y then .isTrue (by rw [h]) else .isFalse (by intro hc; cases hc; exact h rfl)
    | .error x, .error y =>
      if h : x = y then .isTrue (by rw [h]) else .isFalse (by intro hc; cases hc; exact h rfl)
    | .ok _, .error _ => .isFalse (by intro hc; cases hc)
    | .error _, .ok _ => .isFalse (by intro hc; cases hc)

/-- Whether the exception is an `RV32IBaseException` (and hence caught by
the `except RV32IBaseException` clause of `CPU.step`). -/
def PyErr.isRV32IBase : PyErr → Bool
  | .parseError | .unknownAssembly | .unimplemented | .invalidRegister _
  | .invalidAddress _ | .numberFormat | .launchDebugger | .programNormalExit => true
  | .keyError | .typeError | .attributeError | .indexError | .runtimeError => false

/-- Modelled from the spec: `comm/int32.py` is not among the provided source
files.  Per the spec, `Int32` is a 32-bit two's-complement value type; this
function maps an arbitrary integer to its signed 32-bit interpretation
(the `.value` / `.signed()` view). -/
def toSigned32 (v : Int) : Int := (v + 2 ^ 31) % 2 ^ 32 - 2 ^ 31

/-- Modelled from the spec: the unsigned 32-bit interpretation of a value
(`.unsigned_value` / `.unsigned()` view of `Int32`/`UInt32`). -/
def toUnsigned32 (v : Int) : Int := v % 2 ^ 32

/-! ## Encoder: `riscv_assembler/instr_info.py` (class `RV32InstrInfo`) -/

/-- Decimal reading of a digit string (Python `int` on a `\d+` match). -/
def digitsToNat (ds : List Char) : Nat :=
  ds.foldl (fun a c => 10 * a + (c.toNat - '0'.toNat)) 0

/-- Model of `RV32InstrInfo.extract_reg_num`: match `x(\d+)$` against the register
name and return the digits as a number (`None` result models the
`ValueError` raised when the pattern does not match).  Note the source
performs no range check: any digit string after `x` is accepted. -/
def extract_reg_num (reg_name : String) : Option Nat :=
  match reg_name.data with
  | 'x' :: ds =>
      if ds ≠ [] ∧ ds.all Char.isDigit then
        some (digitsToNat ds)
      else none
  | _ => none

/-- The B-type instruction table of `RV32InstrInfo.parse_B_type`
(`funct3`, `opcode`). -/
def bTypeTable (op : String) : Option (Nat × Nat) :=
  match op with
  | "beq"  => some (0b000, 0b1100011)
  | "bne"  => some (0b001, 0b1100011)
  | "blt"  => some (0b100, 0b1100011)
  | "bge"  => some (0b101, 0b1100011)
  | "bltu" => some (0b110, 0b1100011)
  | "bgeu" => some (0b111, 0b1100011)
  | _ => none

/-- The bit assembly of `RV32InstrInfo.parse_B_type` (lines 405-427),
starting from the already-extracted register numbers and the integer
immediate.  `imm_13 = int(imm) & 0x1FFF` is `(imm % 2^13).toNat`.
The source finally renders the word with `format(instruction, '032b')`;
the claims below are about the bits of the word itself, so the model
stops at the integer `instruction`. -/
def parse_B_type (op : String) (rs1 rs2 : String) (imm : Int) : Option Nat :=
  match bTypeTable op with
  | none => none
  | some (funct3, opcode) =>
    match extract_reg_num rs1, extract_reg_num rs2 with
    | some rs1_num, some rs2_num =>
      let imm_13 : Nat := (imm % 2 ^ 13).toNat
      let imm_12 := (imm_13 >>> 12) &&& 0x1
      let imm_10_5 := (imm_13 >>> 5) &&& 0x3F
      let imm_4_1 := (imm_13 >>> 1) &&& 0xF
      let imm_11 := (imm_13 >>> 11) &&& 0x1
      let imm_31_25 := (imm_12 <<< 6) ||| imm_10_5
      let imm_11_7 := (imm_11 <<< 6) ||| imm_4_1
      some ((imm_31_25 <<< 25) ||| (rs2_num <<< 20) ||| (rs1_num <<< 15) |||
            (funct3 <<< 12) ||| (imm_11_7 <<< 7) ||| opcode)
    | _, _ => none

/-- The shift-immediate rows of the I-type table in
`RV32InstrInfo.parse_I_type` (`funct3`, `opcode`, `funct7`). -/
def iShiftTable (op : String) : Option (Nat × Nat × Nat) :=
  match op with
  | "slli" => some (0b001, 0b0010011, 0b0000000)
  | "srli" => some (0b101, 0b0010011, 0b0000000)
  | "srai" => some (0b101, 0b0010011, 0b0100000)
  | _ => none

/-- The `op in ['slli', 'srli', 'srai']` branch of
`RV32InstrInfo.parse_I_type` (lines 283-297): `shamt_6 = int(shamt) & 0x3F`
masks the shift amount to SIX bits and the result is placed at bit 20,
below `funct7 << 25`. -/
def parse_I_type_shift (op : String) (rd rs1 : String) (imm : Int) : Option Nat :=
  match iShiftTable op with
  | none => none
  | some (funct3, opcode, funct7) =>
    match extract_reg_num rd, extract_reg_num rs1 with
    | some rd_num, some rs1_num =>
      let shamt_6 : Nat := (imm % 2 ^ 6).toNat
      some ((funct7 <<< 25) ||| (shamt_6 <<< 20) ||| (rs1_num <<< 15) |||
            (funct3 <<< 12) ||| (rd_num <<< 7) ||| opcode)
    | _, _ => none

/-! ## Python string primitives used by the parser

`str.replace` and the `in` operator, modelled on character lists:
`pyReplace` rewrites the leftmost, non-overlapping occurrences of `pat`
from left to right, `pyContains` is substring containment.  (The guard
`pat ≠ []` is immaterial for the uses below: every symbol-table key is a
nonempty `\w+` match.) -/

/-- Worker for `pyReplace`.  The recursion is driven by a fuel counter so
that it is structural; `pyReplace` supplies `s.length` as fuel, which is
always sufficient because every step discards at least one character
(when fuel runs out the remaining suffix is returned unchanged, a case
that is never reached from `pyReplace`). -/
def pyReplaceF : Nat → List Char → List Char → List Char → List Char
  | 0, s, _, _ => s
  | fuel + 1, s, pat, rep =>
    match s with
    | [] => []
    | c :: rest =>
      if pat ≠ [] ∧ pat.isPrefixOf (c :: rest) then
        rep ++ pyReplaceF fuel ((c :: rest).drop pat.length) pat rep
      else
        c :: pyReplaceF fuel rest pat rep

def pyReplace (s pat rep : List Char) : List Char :=
  pyReplaceF s.length s pat rep

def pyContains (s pat : List Char) : Bool :=
  match s with
  | [] => pat.isEmpty
  | _ :: rest => pat.isPrefixOf s || pyContains rest pat

/-- Python `s.replace(pat, rep)` on `String`s. -/
def strReplace (s pat rep : String) : String := ⟨pyReplace s.data pat.data rep.data⟩

/-- Python `pat in s` on `String`s. -/
def strContains (s pat : String) : Bool := pyContains s.data pat.data

/-! ## Register catalog: `asm/reg_info.py`

The regex family `dict_pat_reg` is translated pattern by pattern.  The
`abi_alias` mapping is loaded by the source from `data/reg_abi_alias.dat`,
a data file not among the provided sources. -/

/-- Model of `^x([0-9]|[1-2][0-9]|3[0-1])$` -/
def matchXReg (t : String) : Bool :=
  match t.data with
  | ['x', d] => d.isDigit
  | ['x', d1, d2] =>
      (((d1 = '1' || d1 = '2') && d2.isDigit) || (d1 = '3' && (d2 = '0' || d2 = '1')))
  | _ => false

/-- Model of `^(zero|ra|sp|gp|tp|fp)$` -/
def matchNamedReg (t : String) : Bool :=
  t = "zero" || t = "ra" || t = "sp" || t = "gp" || t = "tp" || t = "fp"

/-- Model of `^a[0-7]$` -/
def matchAReg (t : String) : Bool :=
  match t.data with
  | ['a', d] => '0'.toNat ≤ d.toNat && d.toNat ≤ '7'.toNat
  | _ => false

/-- Model of `^s([0-9]|1[0-1])$` -/
def matchSReg (t : String) : Bool :=
  match t.data with
  | ['s', d] => d.isDigit
  | ['s', '1', d] => d = '0' || d = '1'
  | _ => false

/-- Model of `^t([0-6])$` -/
def matchTReg (t : String) : Bool :=
  match t.data with
  | ['t', d] => '0'.toNat ≤ d.toNat && d.toNat ≤ '6'.toNat
  | _ => false

/-- Model of `is_reg`: does any of the five register patterns match? -/
def is_reg (t : String) : Bool :=
  matchXReg t || matchNamedReg t || matchAReg t || matchSReg t || matchTReg t

/-- Modelled from the spec: the ABI-alias-to-canonical-name table read from
`asm/data/reg_abi_alias.dat` (the file itself is not among the provided
sources; the alias/index pairs are those of the spec's register catalog,
identical to `Registers.valid_regs` in `emu/registers.py`). -/
def abi_alias : List (String × String) :=
  [("zero", "x0"), ("ra", "x1"), ("sp", "x2"), ("gp", "x3"), ("tp", "x4"),
   ("t0", "x5"), ("t1", "x6"), ("t2", "x7"), ("s0", "x8"), ("fp", "x8"),
   ("s1", "x9"), ("a0", "x10"), ("a1", "x11"), ("a2", "x12"), ("a3", "x13"),
   ("a4", "x14"), ("a5", "x15"), ("a6", "x16"), ("a7", "x17"), ("s2", "x18"),
   ("s3", "x19"), ("s4", "x20"), ("s5", "x21"), ("s6", "x22"), ("s7", "x23"),
   ("s8", "x24"), ("s9", "x25"), ("s10", "x26"), ("s11", "x27"), ("t3", "x28"),
   ("t4", "x29"), ("t5", "x30"), ("t6", "x31")]

/-- Model of `reg_map`: the `x` category is returned unchanged, the other categories
are sent through `abi_alias`; a token matching no pattern raises
`InvalidRegisterException`. -/
def reg_map (t : String) : Except PyErr String :=
  if matchXReg t then .ok t
  else if matchNamedReg t || matchAReg t || matchSReg t || matchTReg t then
    match abi_alias.lookup t with
    | some x => .ok x
    | none => .error .keyError
  else .error (.invalidRegister t)

/-! ## Operand canonicalization: `asm/rv32_parser.py` (`_Parser.canonicalize`) -/

/-- Model of `resolve_link_addr` (lines 61-65): for every symbol-table entry, in
dict (insertion) order, if the key occurs anywhere in the token the
occurrences are replaced by `str(value)` — a plain substring replace. -/
def resolve_link_addr (st : List (String × Int)) (tk : String) : String :=
  st.foldl (fun t kv => if strContains t kv.1 then strReplace t kv.1 (toString kv.2) else t) tk

/-- Model of `_Parser.canonicalize` (lines 58-78): the opcode token is kept, every
operand token is sent through `resolve_link_addr` and then through
`reg_map` when `is_reg` accepts it. -/
def canonicalize (tokens : List String) (st : List (String × Int)) : Except PyErr (List String) :=
  match tokens with
  | [] => .error .indexError
  | t0 :: rest => do
    let newRest ← rest.mapM (fun token => do
      let token := resolve_link_addr st token
      if is_reg token then reg_map token else pure token)
    pure (t0 :: newRest)

/-! ## Register file: `emu/registers.py` (class `Registers`) -/

/-- Model of `Registers.valid_regs`: ABI name to canonical index, in source order
(note `fp` as an alias of `s0` at index 8). -/
def valid_regs : List (String × Nat) :=
  [("zero", 0), ("ra", 1), ("sp", 2), ("gp", 3), ("tp", 4),
   ("t0", 5), ("t1", 6), ("t2", 7), ("s0", 8), ("fp", 8), ("s1", 9),
   ("a0", 10), ("a1", 11), ("a2", 12), ("a3", 13), ("a4", 14), ("a5", 15),
   ("a6", 16), ("a7", 17), ("s2", 18), ("s3", 19), ("s4", 20), ("s5", 21),
   ("s6", 22), ("s7", 23), ("s8", 24), ("s9", 25), ("s10", 26), ("s11", 27),
   ("t3", 28), ("t4", 29), ("t5", 30), ("t6", 31)]

/-- The register file.  `vals` models `self.vals: defaultdict(UInt32)`:
a total map in which every index not yet written reads as `UInt32()`,
whose default value is 0 (the `UInt32` class itself lives in the absent
`comm/int32.py`; the zero default is the spec's reading).  `last_set` and
`last_read` are the two diagnostic scratch fields. -/
structure Registers where
  vals : Nat → Int
  last_set : Option Nat
  last_read : Option Nat

/-- Model of `Registers.__init__`. -/
def Registers.new : Registers := ⟨fun _ => 0, none, none⟩

/-- Model of `Registers.set` (lines 131-147): writes to index 0 return `False`
before anything (including `last_set`) is touched; otherwise the value is
stored via `.signed()` and `True` is returned. -/
def Registers.set (r : Registers) (reg : Nat) (val : Int) (mark_set : Bool) :
    Registers × Bool :=
  if reg = 0 then (r, false)
  else
    ({ vals := fun i => if i = reg then toSigned32 val else r.vals i,
       last_set := if mark_set then some reg else r.last_set,
       last_read := r.last_read }, true)

/-- Model of `Registers.get` (lines 153-164). -/
def Registers.get (r : Registers) (reg : Nat) (mark_read : Bool) :
    Int × Registers :=
  (r.vals reg, { r with last_read := if mark_read then some reg else r.last_read })

/-- Model of `Registers.is_reg_valid`. -/
def Registers.is_reg_valid (reg : String) : Bool := (valid_regs.lookup reg).isSome

/-- Model of `Registers.set_by_name` (lines 124-129): an explicit `is_reg_valid`
check raises `InvalidRegisterException` for unknown names. -/
def Registers.set_by_name (r : Registers) (reg : String) (val : Int) (mark_set : Bool) :
    Except PyErr (Registers × Bool) :=
  if ¬ Registers.is_reg_valid reg then .error (.invalidRegister reg)
  else
    match valid_regs.lookup reg with
    | some reg_id => .ok (r.set reg_id val mark_set)
    | none => .error .keyError

/-- Model of `Registers.get_by_name` (lines 149-151): NO validity check — the name
goes straight into `self.valid_regs[reg]`, so an unknown name raises the
Python built-in `KeyError`, not `InvalidRegisterException`. -/
def Registers.get_by_name (r : Registers) (reg : String) (mark_read : Bool) :
    Except PyErr (Int × Registers) :=
  match valid_regs.lookup reg with
  | some reg_id => .ok (r.get reg_id mark_read)
  | none => .error .keyError

/-! ## Decoded instructions: `emu/instruction.py` -/

/-- Model of `Immediate`: the two 32-bit interpretations (`Int32` values). -/
structure Immediate where
  abs_value : Int
  pcrel_value : Int
deriving DecidableEq, Repr

/-- Model of `TranslatableInstruction`: mnemonic, absolute address, register index
tuple and optional immediate.  (The instance attributes are exactly
`name`, `_addr`, `regs`, `imm` — in particular there is NO `args`
attribute, although the `cpu.py` handlers read `ins.args`.) -/
structure TranslatableInstruction where
  name : String
  addr : Int
  regs : List Nat
  imm : Option Int
deriving DecidableEq, Repr

/-- Model of `TranslatableInstruction.get_imm` (lines 116-122): the guard is the
*truthiness* test `if not self.imm:`, so both an absent immediate and an
immediate equal to 0 raise `NumberFormatException`; otherwise the
`Immediate` carries `val` and `val - self.addr`. -/
def TranslatableInstruction.get_imm (ins : TranslatableInstruction) :
    Except PyErr Immediate :=
  match ins.imm with
  | none => .error .numberFormat
  | some val =>
    if val = 0 then .error .numberFormat
    else .ok ⟨toSigned32 val, toSigned32 (val - ins.addr)⟩

/-- The call form `ins.get_imm(num)` used throughout the `cpu.py`
handlers (`parse_mem_ins`, `parse_rd_rs_imm`, `parse_rs_rs_imm`,
`instruction_lui`, `instruction_jal`, `instruction_jalr`, ...).
`TranslatableInstruction.get_imm` is declared with no positional
parameter besides `self`, so passing the argument index raises the
Python built-in `TypeError` (`get_imm() takes 1 positional argument but
2 were given`) before the instruction semantics run. -/
def TranslatableInstruction.get_imm_at (ins : TranslatableInstruction) (num : Nat) :
    Except PyErr Immediate :=
  .error .typeError

/-- Model of `TranslatableInstruction.get_reg` (lines 124-125): `self.regs[num]`;
an out-of-range index raises the Python built-in `IndexError`. -/
def TranslatableInstruction.get_reg (ins : TranslatableInstruction) (num : Nat) :
    Except PyErr Nat :=
  match ins.regs.get? num with
  | some r => .ok r
  | none => .error .indexError

/-- The attribute access `ins.args` performed by the handlers (e.g.
`ASSERT_LEN(ins.args, 3)`): `TranslatableInstruction` defines no `args`
attribute, so it raises the Python built-in `AttributeError`. -/
def TranslatableInstruction.args_attr (ins : TranslatableInstruction) :
    Except PyErr (List Nat) :=
  .error .attributeError

/-! ## Memory unit: `emu/mmu.py` (class `MMU`) -/

/-- The MMU: program base, size (set by `load_program`) and the sparse
`abs_addr => instruction` store. -/
structure MMU where
  base : Int
  size : Nat
  program : List (Int × TranslatableInstruction)

/-- Model of `MMU.read_ins` (lines 55-63): a bare dict subscript
`self.program[addr]` — no validity or alignment check, and a miss raises
the Python built-in `KeyError` (not `InvalidAddressException`). -/
def MMU.read_ins (mmu : MMU) (addr : Int) : Except PyErr TranslatableInstruction :=
  match mmu.program.lookup addr with
  | some ins => .ok ins
  | none => .error .keyError

/-- Model of `MMU.load_program` (lines 105-116): each `addr => (name, regs, imm)`
entry becomes a `TranslatableInstruction` stored at `addr`; `size` is the
number of entries. -/
def MMU.load_program (base : Int) (asms : List (Int × (String × List Nat × Option Int))) : MMU :=
  { base := base,
    size := asms.length,
    program := asms.map (fun e => (e.1, ⟨e.2.1, e.1, e.2.2.1, e.2.2.2⟩)) }

/-- Model of `MMU.is_valid_addr` (lines 121-134).  `addr - self.base` is `UInt32`
arithmetic, hence the wrap `% 2^32`; `>> 2` on the nonnegative result is
division by 4; `addr.value & 3` is `addr % 4`. -/
def MMU.is_valid_addr (mmu : MMU) (addr : Int) : Bool :=
  if addr < mmu.base then false
  else if ((addr - mmu.base) % 2 ^ 32) / 4 ≥ mmu.size then false
  else if addr % 4 ≠ 0 then false
  else true

/-- The address assignment of `_Parser.interpret` (`asm/rv32_parser.py`
lines 41-56): the k-th translatable line is keyed by `base + 4*k`
(`pc = base; ...; pc += INS_XLEN`). -/
def interpretAddrs {α : Type} (base : Int) : List α → List (Int × α)
  | [] => []
  | x :: xs => (base, x) :: interpretAddrs (base + 4) xs

/-! ## CPU and RV32I handlers: `emu/cpu.py`

The CPU state mirrors the housekeeping fields of class `CPU`.  `pc` is a
plain Python `int` (no 32-bit wrap is applied by the loop or by the
handlers).  Each handler returns the mutated state together with
`Option PyErr`: Python mutations performed before an exception is raised
are retained, as they are on the live object. -/

structure CPUState where
  regs : Registers
  mmu : MMU
  pc : Int
  cycle : Nat
  halted : Bool
  debugger_active : Bool

/-- The taken-branch PC update shared by the six branch handlers
(`self.cpu.pc += dst.pcrel_value.value - 4`, cpu.py lines 286/291/...):
the `- 4` compensates the `pc += INS_XLEN` pre-increment of `CPU.step`. -/
def branch_taken_pc_update (pc pcrel : Int) : Int := pc + (pcrel - 4)

/-- Model of `parse_rs_rs_imm` (cpu.py lines 103-112): reads the two register
operands (each read marks `last_read`), then evaluates `ins.get_imm(2)` —
which raises `TypeError` (see `get_imm_at`). -/
def parse_rs_rs_imm (s : CPUState) (ins : TranslatableInstruction) :
    (CPUState × Option PyErr) ⊕ (CPUState × Int × Int × Immediate) :=
  match ins.get_reg 0 with
  | .error e => .inl (s, some e)
  | .ok r1 =>
    let (v1, regs1) := s.regs.get r1 true
    match ins.get_reg 1 with
    | .error e => .inl ({ s with regs := regs1 }, some e)
    | .ok r2 =>
      let (v2, regs2) := regs1.get r2 true
      match ins.get_imm_at 2 with
      | .error e => .inl ({ s with regs := regs2 }, some e)
      | .ok imm => .inr ({ s with regs := regs2 }, toSigned32 v1, toSigned32 v2, imm)

/-- Model of `RV32I.instruction_beq` (cpu.py lines 283-286). -/
def instruction_beq (s : CPUState) (ins : TranslatableInstruction) :
    CPUState × Option PyErr :=
  match parse_rs_rs_imm s ins with
  | .inl out => out
  | .inr (s', rs1, rs2, dst) =>
    if rs1 = rs2 then ({ s' with pc := branch_taken_pc_update s'.pc dst.pcrel_value }, none)
    else (s', none)

/-- Model of `RV32I.instruction_bne` (cpu.py lines 288-291). -/
def instruction_bne (s : CPUState) (ins : TranslatableInstruction) :
    CPUState × Option PyErr :=
  match parse_rs_rs_imm s ins with
  | .inl out => out
  | .inr (s', rs1, rs2, dst) =>
    if rs1 ≠ rs2 then ({ s' with pc := branch_taken_pc_update s'.pc dst.pcrel_value }, none)
    else (s', none)

/-- Model of `RV32I.instruction_blt` (cpu.py lines 293-296). -/
def instruction_blt (s : CPUState) (ins : TranslatableInstruction) :
    CPUState × Option PyErr :=
  match parse_rs_rs_imm s ins with
  | .inl out => out
  | .inr (s', rs1, rs2, dst) =>
    if rs1 < rs2 then ({ s' with pc := branch_taken_pc_update s'.pc dst.pcrel_value }, none)
    else (s', none)

/-- Model of `RV32I.instruction_bge` (cpu.py lines 298-301). -/
def instruction_bge (s : CPUState) (ins : TranslatableInstruction) :
    CPUState × Option PyErr :=
  match parse_rs_rs_imm s ins with
  | .inl out => out
  | .inr (s', rs1, rs2, dst) =>
    if rs1 ≥ rs2 then ({ s' with pc := branch_taken_pc_update s'.pc dst.pcrel_value }, none)
    else (s', none)

/-- Model of `RV32I.instruction_bltu` (cpu.py lines 303-306): unsigned compare. -/
def instruction_bltu (s : CPUState) (ins : TranslatableInstruction) :
    CPUState × Option PyErr :=
  match parse_rs_rs_imm s ins with
  | .inl out => out
  | .inr (s', rs1, rs2, dst) =>
    if toUnsigned32 rs1 < toUnsigned32 rs2 then
      ({ s' with pc := branch_taken_pc_update s'.pc dst.pcrel_value }, none)
    else (s', none)

/-- Model of `RV32I.instruction_bgeu` (cpu.py lines 308-311): unsigned compare. -/
def instruction_bgeu (s : CPUState) (ins : TranslatableInstruction) :
    CPUState × Option PyErr :=
  match parse_rs_rs_imm s ins with
  | .inl out => out
  | .inr (s', rs1, rs2, dst) =>
    if toUnsigned32 rs1 ≥ toUnsigned32 rs2 then
      ({ s' with pc := branch_taken_pc_update s'.pc dst.pcrel_value }, none)
    else (s', none)

/-- The PC assignment of `RV32I.instruction_jalr` (cpu.py line 335):
`self.cpu.pc = self.regs.get(base).unsigned_value + addr`, where `addr`
is `ins.get_imm(2).abs_value.value`.  Plain integer addition — in
particular bit 0 of the result is NOT cleared. -/
def jalr_pc_assign (base_val addr : Int) : Int := toUnsigned32 base_val + addr

/-- Model of `RV32I.instruction_jalr` (cpu.py lines 329-335).  The first statement
is `ASSERT_LEN(ins.args, 3)`, whose attribute access `ins.args` raises
`AttributeError`; the remaining statements of the source are translated
below it and are unreachable. -/
def instruction_jalr (s : CPUState) (ins : TranslatableInstruction) :
    CPUState × Option PyErr :=
  match ins.args_attr with
  | .error e => (s, some e)
  | .ok args =>
    if args.length ≠ 3 then (s, some .parseError)
    else
      match ins.get_reg 0 with
      | .error e => (s, some e)
      | .ok reg =>
        match ins.get_reg 1 with
        | .error e => (s, some e)
        | .ok base =>
          match ins.get_imm_at 2 with
          | .error e => (s, some e)
          | .ok imm =>
            let addr := imm.abs_value
            let (regs1, _) := s.regs.set reg (toSigned32 s.pc) true
            let (base_val, regs2) := regs1.get base true
            ({ s with regs := regs2, pc := jalr_pc_assign base_val addr }, none)

/-- The shift count of `RV32I.instruction_slli` (cpu.py line 186):
`imm.abs_value & 0b11111` — the low five bits of the immediate. -/
def slli_shamt (imm_abs : Int) : Nat := (toUnsigned32 imm_abs).toNat &&& 0b11111

/-- Model of `RV32I.instruction_slli` (cpu.py lines 181-186).  As in
`instruction_jalr`, `ASSERT_LEN(ins.args, 3)` raises `AttributeError`
first; the translated remainder (shift left by `imm.abs_value & 0b11111`,
result wrapped to 32 bits by `Int32.__lshift__`) is unreachable. -/
def instruction_slli (s : CPUState) (ins : TranslatableInstruction) :
    CPUState × Option PyErr :=
  match ins.args_attr with
  | .error e => (s, some e)
  | .ok args =>
    if args.length ≠ 3 then (s, some .parseError)
    else
      match ins.get_reg 0 with
      | .error e => (s, some e)
      | .ok dst =>
        match ins.get_reg 1 with
        | .error e => (s, some e)
        | .ok src1 =>
          match ins.get_imm_at 2 with
          | .error e => (s, some e)
          | .ok imm =>
            let (v, regs1) := s.regs.get src1 true
            let (regs2, _) := regs1.set dst (toSigned32 (v * 2 ^ slli_shamt imm.abs_value)) true
            ({ s with regs := regs2 }, none)

/-- Model of `CPU.run_instruction` (cpu.py lines 474-483): dispatch through
`self.instr_handlers[ins.name]`.  The handlers modelled here are the ones
the claims are about; for every other mnemonic the model returns the
`RuntimeError` that `run_instruction` raises on a `KeyError` (unmodelled
handlers exist in the source but are not needed by any claim). -/
def run_instruction (s : CPUState) (ins : TranslatableInstruction) :
    CPUState × Option PyErr :=
  match ins.name with
  | "beq" => instruction_beq s ins
  | "bne" => instruction_bne s ins
  | "blt" => instruction_blt s ins
  | "bge" => instruction_bge s ins
  | "bltu" => instruction_bltu s ins
  | "bgeu" => instruction_bgeu s ins
  | "jalr" => instruction_jalr s ins
  | "slli" => instruction_slli s ins
  | _ => (s, some .runtimeError)

/-- Model of `CPU.step` (cpu.py lines 428-458): increment `cycle`, fetch at `pc`,
pre-increment `pc` by `INS_XLEN = 4`, dispatch.  `RV32IBaseException`s
are absorbed (either trapping to the debugger for `LaunchDebugger` or
setting `halted`); Python-level exceptions (`KeyError`, `TypeError`,
`AttributeError`, ...) propagate out of `step` — the mutations made up to
that point are kept. -/
def CPU.step (s : CPUState) : CPUState × Option PyErr :=
  let s1 := { s with cycle := s.cycle + 1 }
  match s1.mmu.read_ins s1.pc with
  | .error e => (s1, some e)
  | .ok ins =>
    let s2 := { s1 with pc := s1.pc + 4 }
    let (s3, err) := run_instruction s2 ins
    match err with
    | none => (s3, none)
    | some e =>
      if e.isRV32IBase then
        if e = .launchDebugger then
          if s3.debugger_active then (s3, some e) else (s3, none)
        else ({ s3 with halted := true }, none)
      else (s3, some e)

/-! ## Preprocessor: `asm/asm_backend.py` (`RV32Backend.preproc`)

The regex patterns of `preproc` are translated character-by-character.
`\s` is space/tab (the input is split into newline-free lines first),
`\w` is `[A-Za-z0-9_]`.  The `.equ` right-hand side goes through Python
`eval`; that host evaluator is abstracted as an oracle parameter
`ev : String → Option Int` (`none` models an `eval` failure, which
`handle_directives` converts to a `ParseException`). -/

def isSpaceChar (c : Char) : Bool := c = ' ' || c = '\t'

def isWordChar (c : Char) : Bool := c.isAlphanum || c = '_'

def trimChars (l : List Char) : List Char :=
  ((l.dropWhile isSpaceChar).reverse.dropWhile isSpaceChar).reverse

/-- Python `str.strip()`. -/
def stripStr (s : String) : String := ⟨trimChars s.data⟩

/-- Model of `re.sub(r'[;#].*', '', line).strip()` — drop everything from the
first `#` or `;`, then strip. -/
def stripComment (line : String) : String :=
  ⟨trimChars (line.data.takeWhile (fun c => c ≠ '#' ∧ c ≠ ';'))⟩

/-- Worker for `splitWs`: accumulates the current token (reversed). -/
def splitWsB : List Char → List Char → List String
  | [], cur => if cur.isEmpty then [] else [⟨cur.reverse⟩]
  | c :: rest, cur =>
    if isSpaceChar c then
      (if cur.isEmpty then [] else [⟨cur.reverse⟩]) ++ splitWsB rest []
    else splitWsB rest (c :: cur)

/-- Python `str.split()` with no argument: split on whitespace runs,
no empty fields. -/
def splitWs (l : List Char) : List String := splitWsB l []

/-- Worker for `pySplitComma`. -/
def splitCommaB : List Char → List Char → List (List Char)
  | [], cur => [cur.reverse]
  | c :: rest, cur =>
    if c = ',' then cur.reverse :: splitCommaB rest []
    else splitCommaB rest (c :: cur)

/-- Python `str.split(',')`: split at every comma, keeping empty fields. -/
def pySplitComma (s : String) : List String :=
  (splitCommaB s.data []).map (fun l => ⟨l⟩)

/-- Python `str.lower()` (ASCII). -/
def pyLower (s : String) : String := ⟨s.data.map Char.toLower⟩

/-- Python `str.startswith(pre)`. -/
def strStartsWith (s pre : String) : Bool := pre.data.isPrefixOf s.data

/-- Model of `sep.join(tokens)`. -/
def joinWith (sep : String) : List String → String
  | [] => ""
  | [x] => x
  | x :: xs => x ++ sep ++ joinWith sep xs

/-- Model of `^\s*\.macro\s+(\w+)(?:\s+(.*))?` on an already-stripped line:
returns the macro name and, when at least one whitespace character
follows it, the rest of the line (group 2). -/
def matchMacDef (line : String) : Option (String × Option String) :=
  if strStartsWith line ".macro" then
    match line.data.drop 6 with
    | [] => none
    | c :: cs =>
      if isSpaceChar c then
        let rest2 := (c :: cs).dropWhile isSpaceChar
        let name := rest2.takeWhile isWordChar
        if name = [] then none
        else
          match rest2.drop name.length with
          | [] => some (⟨name⟩, none)
          | c2 :: cs2 =>
            if isSpaceChar c2 then some (⟨name⟩, some ⟨(c2 :: cs2).dropWhile isSpaceChar⟩)
            else some (⟨name⟩, none)
      else none
  else none

/-- Model of `^\s*\.endm` on an already-stripped line (no trailing anchor: any
line beginning with `.endm` closes the macro). -/
def matchEndm (line : String) : Bool := strStartsWith line ".endm"

/-- Model of `^\s*\.(\w+)\b\s*(.*)` on an already-stripped line: directive name
and argument text. -/
def matchDirective (line : String) : Option (String × String) :=
  match line.data with
  | '.' :: rest =>
    let name := rest.takeWhile isWordChar
    if name = [] then none
    else some (⟨name⟩, ⟨(rest.drop name.length).dropWhile isSpaceChar⟩)
  | _ => none

/-- Model of `^(\w+):\s*(.*)`: a leading `\w+` run directly followed by `:`.
The trailing `(.*)` makes `label_match.end()` the end of the line, so
`line[label_match.end():]` is always empty — anything after the label on
the same line is consumed by the match and dropped. -/
def matchLabel (line : String) : Option String :=
  let name := line.data.takeWhile isWordChar
  if name = [] then none
  else
    match line.data.drop name.length with
    | ':' :: _ => some ⟨name⟩
    | _ => none

/-- Python dict assignment `d[k] = v` on an association list: overwrite
in place, else append. -/
def dictSet {β : Type} : List (String × β) → String → β → List (String × β)
  | [], k, v => [(k, v)]
  | (k', v') :: rest, k, v =>
    if k' = k then (k, v) :: rest else (k', v') :: dictSet rest k v

/-- Model of `macro_args_line.replace(',', '').strip().split()`. -/
def parseMacArgs : Option String → List String
  | none => []
  | some s => if s = "" then [] else splitWs (s.data.filter (fun c => c ≠ ','))

/-- Preprocessor state: the in-macro accumulation variables, the macro
dictionary (`name => (args, lines)`), the symbol table, the translatable
line count and the collected mnemonic lines of `RV32Backend`.  (The
`translatable_indices` bookkeeping, which only records source line
numbers for diagnostics, is not modelled.) -/
structure PreSt where
  inMac : Bool
  macName : String
  macArgs : List String
  macLines : List String
  macs : List (String × (List String × List String))
  symtab : List (String × Int)
  cnt : Nat
  mnemonics : List String
deriving Repr, DecidableEq

def PreSt.start : PreSt := ⟨false, "", [], [], [], [], 0, []⟩

/-- Model of `RV32Backend.handle_directives`: `.equ NAME, EXPR` evaluates `EXPR`
(oracle `ev`) and stores the lowercased name; wrong arity or a failed
evaluation raises `ParseException`; every other directive is ignored. -/
def handle_directives (ev : String → Option Int) (s : PreSt)
    (dname dargs : String) : Except PyErr PreSt :=
  if dname = "equ" then
    match pySplitComma dargs with
    | [a0, a1] =>
      let name := pyLower (stripStr a0)
      match ev (stripStr a1) with
      | some v => .ok { s with symtab := dictSet s.symtab name v }
      | none => .error .parseError
    | _ => .error .parseError
  else .ok s

/-- Model of `RV32Backend.expand_macros` followed by the caller's `.split('\n')`:
a line whose first (comma-stripped, whitespace-split) token names a macro
becomes the macro body with each `\param` textually replaced by the
call-site argument (`zip` truncates to the shorter list); any other line
is returned unchanged.  `'\n'.join([]) == ''` makes an empty macro body
expand to the single empty line. -/
def expandMacs (macs : List (String × (List String × List String)))
    (line : String) : List String :=
  match splitWs ((stripStr line).data.filter (fun c => c ≠ ',')) with
  | [] => [line]
  | mnemonic :: args =>
    match macs.lookup mnemonic with
    | none => [line]
    | some (margs, mlines) =>
      let argMap := margs.zip args
      let expanded := mlines.map (fun ml =>
        argMap.foldl (fun acc p => strReplace acc ⟨'\\' :: p.1.data⟩ p.2) ml)
      if mlines = [] then [""] else expanded

/-- Model of `line.split()[0]` (raises `IndexError` on a blank line — `none`). -/
def firstTok (line : String) : Option String := (splitWs line.data).head?

/-- Model of `RV32Backend.is_translatable_line`'s mnemonic pattern
`^[a-zA-Z]+(?:\.[a-zA-Z0-9]+)?$` applied to the first token. -/
def isTranslatableTok (t : String) : Bool :=
  let a := t.data.takeWhile Char.isAlpha
  a ≠ [] &&
    (match t.data.drop a.length with
     | [] => true
     | '.' :: rest => rest ≠ [] && rest.all Char.isAlphanum
     | _ => false)

/-- Model of `whitespace_pattern.sub(' ', line).strip()`. -/
def normSpaces (line : String) : String := joinWith " " (splitWs line.data)

/-- The `for line in expanded_lines` loop at the end of `preproc`
(lines 215-225): every expanded line must be translatable
(`UnknownAssemblyException` otherwise); it is whitespace-normalised and
appended to `mnemonics`, and `translatable_line_cnt` is incremented. -/
def processTranslatable (s : PreSt) : List String → Except PyErr PreSt
  | [] => .ok s
  | l :: ls =>
    match firstTok l with
    | none => .error .indexError
    | some t =>
      if ¬ isTranslatableTok t then .error .unknownAssembly
      else processTranslatable
        { s with mnemonics := s.mnemonics ++ [normSpaces l], cnt := s.cnt + 1 } ls

/-- One iteration of the `preproc` line loop (lines 149-225): comment
strip and blank skip, macro-body accumulation, macro definition open,
directive dispatch, label recording (the label maps to
`base_addr + (translatable_line_cnt << 2)`; the rest of the line is
always empty, see `matchLabel`), macro expansion and translatable-line
collection. -/
def preprocLine (ev : String → Option Int) (base : Int) (s : PreSt)
    (rawLine : String) : Except PyErr PreSt :=
  let line := stripComment rawLine
  if line = "" then .ok s
  else if s.inMac then
    if matchEndm line then
      .ok { s with inMac := false,
                   macs := dictSet s.macs s.macName (s.macArgs, s.macLines),
                   macName := "", macArgs := [], macLines := [] }
    else .ok { s with macLines := s.macLines ++ [line] }
  else
    match matchMacDef line with
    | some (name, argsLine) =>
      .ok { s with inMac := true, macName := name,
                   macArgs := parseMacArgs argsLine, macLines := [] }
    | none =>
      match matchDirective line with
      | some (dname, dargs) => handle_directives ev s dname dargs
      | none =>
        match matchLabel line with
        | some lname =>
          .ok { s with symtab := dictSet s.symtab lname (base + 4 * (s.cnt : Int)) }
        | none => processTranslatable s (expandMacs s.macs line)

/-- The whole line loop of `preproc` over a list of lines. -/
def preprocList (ev : String → Option Int) (base : Int) (s : PreSt) :
    List String → Except PyErr PreSt
  | [] => .ok s
  | l :: ls =>
    match preprocLine ev base s l with
    | .error e => .error e
    | .ok s' => preprocList ev base s' ls

/-- Model of `RV32Backend.preproc` on an input already split into lines
(`input.splitlines()`). -/
def preproc (ev : String → Option Int) (base : Int) (input : List String) :
    Except PyErr PreSt :=
  preprocList ev base PreSt.start input

/-! ## Register-file operation sequences (for the x0 invariant) -/

/-- An arbitrary interaction with the register file through its public
interface (`set`/`get`/`set_by_name`/`get_by_name`). -/
inductive RegOp where
  | setIdx (i : Nat) (v : Int)
  | getIdx (i : Nat)
  | setName (n : String) (v : Int)
  | getName (n : String)

/-- The register-file state after one interaction (a raised
`InvalidRegisterException`/`KeyError` leaves the object as it was). -/
def applyRegOp (r : Registers) : RegOp → Registers
  | .setIdx i v => (r.set i v true).1
  | .getIdx i => (r.get i true).2
  | .setName n v =>
    match r.set_by_name n v true with
    | .ok p => p.1
    | .error _ => r
  | .getName n =>
    match r.get_by_name n true with
    | .ok p => p.2
    | .error _ => r

/-- The register-file state after a sequence of interactions. -/
def applyRegOps (r : Registers) (ops : List RegOp) : Registers :=
  ops.foldl applyRegOp r

/-! # Theorems -/

/-! ## Helper lemmas -/

theorem set_vals_zero (r : Registers) (i : Nat) (v : Int) (m : Bool) :
    ((r.set i v m).1).vals 0 = r.vals 0 := by
  unfold Registers.set
  by_cases h : i = 0
  · simp [h]
  · simp only [if_neg h]
    exact if_neg (fun he => h he.symm)

theorem applyRegOp_vals_zero (r : Registers) (op : RegOp) :
    (applyRegOp r op).vals 0 = r.vals 0 := by
  cases op with
  | setIdx i v => exact set_vals_zero r i v true
  | getIdx i => rfl
  | setName n v =>
    unfold applyRegOp Registers.set_by_name
    by_cases h : Registers.is_reg_valid n
    · simp only [h, not_true, if_neg, ite_false]
      cases hl : valid_regs.lookup n with
      | none => simp
      | some reg_id => simpa using set_vals_zero r reg_id v true
    · simp [h]
  | getName n =>
    unfold applyRegOp Registers.get_by_name
    cases hl : valid_regs.lookup n with
    | none => simp [hl]
    | some reg_id => simp [hl, Registers.get]

theorem applyRegOps_vals_zero (ops : List RegOp) :
    ∀ (r : Registers), (applyRegOps r ops).vals 0 = r.vals 0 := by
  induction ops with
  | nil => intro r; rfl
  | cons op ops ih =>
    intro r
    show (applyRegOps (applyRegOp r op) ops).vals 0 = r.vals 0
    rw [ih, applyRegOp_vals_zero]

theorem valid_regs_lookup_mem : ∀ p ∈ valid_regs, valid_regs.lookup p.1 = some p.2 := by
  decide

/-! ## Claim theorems -/

/-- Claim C6: a write `set(0, v)` leaves the register file unchanged and
returns `False`, and after any sequence of public register-file
operations a `get(0)` still returns 0. -/
theorem c6_x0_invariant :
    ∀ (ops : List RegOp) (v : Int),
      ((applyRegOps Registers.new ops).set 0 v true).1 = applyRegOps Registers.new ops
      ∧ ((applyRegOps Registers.new ops).set 0 v true).2 = false
      ∧ ((applyRegOps Registers.new ops).get 0 true).1 = 0 := by
  intro ops v
  refine ⟨rfl, rfl, ?_⟩
  show (applyRegOps Registers.new ops).vals 0 = 0
  rw [applyRegOps_vals_zero]
  rfl

/-- Claim C9, counterexample to the claim as stated: `get_by_name` on the
illegal name `"foo"` raises the Python `KeyError`, not
`InvalidRegisterException` as the claim asserts. -/
theorem c9_counterexample :
    Registers.new.get_by_name "foo" true = .error PyErr.keyError
    ∧ PyErr.keyError ≠ PyErr.invalidRegister "foo" := by
  exact ⟨rfl, by decide⟩

/-- Claim C9 as amended: both accessors resolve every ABI alias of
`valid_regs` to its index; for a name outside the table `set_by_name`
raises `InvalidRegisterException` while `get_by_name` raises the Python
built-in `KeyError` from the bare dict subscript. -/
theorem c9_by_name_amended :
    (∀ (r : Registers) (v : Int), ∀ p ∈ valid_regs,
        r.set_by_name p.1 v true = .ok (r.set p.2 v true)
        ∧ r.get_by_name p.1 true = .ok (r.get p.2 true))
    ∧ (∀ (r : Registers) (v : Int) (n : String), valid_regs.lookup n = none →
        r.set_by_name n v true = .error (.invalidRegister n)
        ∧ r.get_by_name n true = .error .keyError) := by
  constructor
  · intro r v p hp
    have hl := valid_regs_lookup_mem p hp
    constructor
    · unfold Registers.set_by_name Registers.is_reg_valid
      rw [hl]
      simp
    · unfold Registers.get_by_name
      rw [hl]
  · intro r v n hl
    constructor
    · unfold Registers.set_by_name Registers.is_reg_valid
      rw [hl]
      simp
    · unfold Registers.get_by_name
      rw [hl]

/-- Witness for `c9_by_name_amended` at the alias `fp` (index 8) and at
the illegal name `"qq"`. -/
theorem c9_by_name_amended_witness :
    Registers.new.set_by_name "fp" 7 true = .ok (Registers.new.set 8 7 true)
    ∧ Registers.new.get_by_name "qq" true = .error .keyError :=
  ⟨(c9_by_name_amended.1 Registers.new 7 ("fp", 8) (by decide)).1,
   (c9_by_name_amended.2 Registers.new 0 "qq" (by decide)).2⟩

/-- Claim C10: a `TranslatableInstruction` whose `imm` field is 0 is
rejected by `get_imm` with `NumberFormatException` — exactly as an absent
immediate is — because of the truthiness test `if not self.imm`. -/
theorem c10_zero_imm_number_format :
    ∀ (name : String) (addr : Int) (regs : List Nat),
      TranslatableInstruction.get_imm ⟨name, addr, regs, some 0⟩ = .error .numberFormat
      ∧ TranslatableInstruction.get_imm ⟨name, addr, regs, none⟩ = .error .numberFormat := by
  intro name addr regs
  exact ⟨by simp [TranslatableInstruction.get_imm], rfl⟩

/-- Claim C3: executing `jalr` never reaches the register/PC updates —
`ASSERT_LEN(ins.args, 3)` raises `AttributeError` on every
`TranslatableInstruction` — and the PC assignment written in the handler
(`jalr_pc_assign`) performs no clearing of bit 0: with `rs1 = 5` and
`imm = 0` it would produce the odd address 5. -/
theorem c3_jalr_code_bug :
    (∀ (s : CPUState) (ins : TranslatableInstruction),
        instruction_jalr s ins = (s, some PyErr.attributeError))
    ∧ jalr_pc_assign 5 0 = 5
    ∧ jalr_pc_assign 5 0 % 2 = 1 := by
  refine ⟨fun s ins => rfl, by decide, by decide⟩

/-- Claim C8: a branch instruction never completes a step — the fetch
increments PC, but the handler's `ins.get_imm(2)` raises `TypeError`
before the comparison, and the error escapes `CPU.step` (it is not an
`RV32IBaseException`).  The last conjunct checks the arithmetic the claim
describes: the `- 4` in the (unreached) taken-branch update would exactly
cancel the pre-increment, giving `PC = pc_fetch + d`. -/
theorem c8_branch_step_code_bug :
    (CPU.step ⟨Registers.new,
        MMU.load_program 0x80100 (interpretAddrs 0x80100 [("beq", [0, 0], some 8)]),
        0x80100, 0, false, false⟩).2 = some PyErr.typeError
    ∧ (CPU.step ⟨Registers.new,
        MMU.load_program 0x80100 (interpretAddrs 0x80100 [("beq", [0, 0], some 8)]),
        0x80100, 0, false, false⟩).1.pc = 0x80100 + 4
    ∧ (CPU.step ⟨Registers.new,
        MMU.load_program 0x80100 (interpretAddrs 0x80100 [("beq", [0, 0], some 8)]),
        0x80100, 0, false, false⟩).1.halted = false
    ∧ (∀ (pc_fetch d : Int), branch_taken_pc_update (pc_fetch + 4) d = pc_fetch + d) := by
  refine ⟨rfl, by decide, rfl, fun pc_fetch d => ?_⟩
  unfold branch_taken_pc_update
  ring

/-- Claim C1: the B-type encoder does NOT produce the claimed scatter.
`imm_11_7 = (imm_11 << 6) | imm_4_1` is 7 bits wide but is shifted to
bit 7, so `imm[11]` lands at bit 13 (inside the funct3 field) and
`imm[4:1]` at bits 10:7, with bit 11 always 0.  For `beq x1, x2, -4` the
code yields `0xFE20A763`: bit 13 is set although funct3 of `beq` is
`0b000`, and bit 7 is clear although `imm[11] = 1`; for `beq x1, x2, 8`
(`imm[4:1] = 0b0100`) the code yields `0x00208263`, with bit 9 set and
bit 10 clear, while the claimed layout sets bit 10. -/
theorem c1_b_type_scatter_code_bug :
    parse_B_type "beq" "x1" "x2" (-4) = some 0xFE20A763
    ∧ Nat.testBit 0xFE20A763 13 = true
    ∧ Nat.testBit 0xFE20A763 7 = false
    ∧ parse_B_type "beq" "x1" "x2" 8 = some 0x00208263
    ∧ Nat.testBit 0x00208263 9 = true
    ∧ Nat.testBit 0x00208263 10 = false := by
  decide

theorem interpretAddrs_length {α : Type} (l : List α) :
    ∀ (b : Int), (interpretAddrs b l).length = l.length := by
  induction l with
  | nil => intro b; rfl
  | cons x xs ih => intro b; simpa [interpretAddrs] using ih (b + 4)

theorem mmu_program_lookup_hit
    (prog : List (String × List Nat × Option Int)) :
    ∀ (base pc : Int) (k : Nat), k < prog.length → pc = base + 4 * (k : Int) →
      ∃ ins, ((MMU.load_program base (interpretAddrs base prog)).program).lookup pc
          = some ins ∧ ins.addr = pc := by
  induction prog with
  | nil => intro base pc k hk _; exact absurd hk (by simp)
  | cons x xs ih =>
    intro base pc k hk hpc
    cases k with
    | zero =>
      refine ⟨⟨x.1, pc, x.2.1, x.2.2⟩, ?_, rfl⟩
      have hb : pc = base := by push_cast at hpc; omega
      subst hb
      simp [MMU.load_program, interpretAddrs, List.lookup]
    | succ k =>
      have hne : ¬ (pc == base) = true := by
        simp only [beq_iff_eq]
        push_cast at hpc
        omega
      have hstep := ih (base + 4) pc k (by simpa using Nat.lt_of_succ_lt_succ hk)
        (by push_cast at hpc ⊢; omega)
      obtain ⟨ins, hl, ha⟩ := hstep
      refine ⟨ins, ?_, ha⟩
      simpa [MMU.load_program, interpretAddrs, List.lookup, hne] using hl

theorem mmu_program_lookup_miss
    (prog : List (String × List Nat × Option Int)) :
    ∀ (base pc : Int), (∀ k : Nat, k < prog.length → pc ≠ base + 4 * (k : Int)) →
      ((MMU.load_program base (interpretAddrs base prog)).program).lookup pc = none := by
  induction prog with
  | nil => intro base pc _; rfl
  | cons x xs ih =>
    intro base pc h
    have hne : ¬ (pc == base) = true := by
      simp only [beq_iff_eq]
      have := h 0 (by simp)
      simpa using this
    have := ih (base + 4) pc (by
      intro k hk heq
      have := h (k + 1) (by simpa using Nat.succ_lt_succ hk)
      push_cast at this heq
      omega)
    simpa [MMU.load_program, interpretAddrs, List.lookup, hne] using this

/-- Claim C2 as amended: `read_ins` is a bare dict lookup.  For a program
loaded at a 4-aligned `base` it returns the stored instruction at every
`pc` satisfying `base ≤ pc < base + 4·size ∧ pc % 4 = 0`, and for every
other `pc` (out of range or misaligned) it raises the Python built-in
`KeyError` — never `InvalidAddressException`.  The validity predicate of
the claim is implemented correctly by `is_valid_addr`, but `read_ins`
does not consult it (only `dump` does). -/
theorem c2_read_ins_amended :
    ∀ (base : Int) (prog : List (String × List Nat × Option Int)) (pc : Int),
      base % 4 = 0 →
      ((base ≤ pc ∧ pc < base + 4 * (prog.length : Int) ∧ pc % 4 = 0) →
        ∃ ins, (MMU.load_program base (interpretAddrs base prog)).read_ins pc = .ok ins
          ∧ ins.addr = pc)
      ∧ (¬ (base ≤ pc ∧ pc < base + 4 * (prog.length : Int) ∧ pc % 4 = 0) →
        (MMU.load_program base (interpretAddrs base prog)).read_ins pc
          = .error PyErr.keyError)
      ∧ (0 ≤ base → 0 ≤ pc → pc < 2 ^ 32 →
        ((MMU.load_program base (interpretAddrs base prog)).is_valid_addr pc = true
          ↔ (base ≤ pc ∧ pc < base + 4 * (prog.length : Int) ∧ pc % 4 = 0))) := by
  intro base prog pc hbase
  refine ⟨?_, ?_, ?_⟩
  · rintro ⟨h1, h2, h3⟩
    obtain ⟨ins, hl, ha⟩ := mmu_program_lookup_hit prog base pc ((pc - base) / 4).toNat
      (by omega) (by omega)
    exact ⟨ins, by simp [MMU.read_ins, hl], ha⟩
  · intro hnot
    have hmiss := mmu_program_lookup_miss prog base pc (by
      intro k hk heq
      apply hnot
      refine ⟨by omega, ?_, by omega⟩
      have : (k : Int) < (prog.length : Int) := by exact_mod_cast hk
      omega)
    simp [MMU.read_ins, hmiss]
  · intro hb0 hp0 hp32
    simp only [MMU.is_valid_addr, MMU.load_program, interpretAddrs_length]
    by_cases h1 : pc < base
    · rw [if_pos h1]
      simp only [Bool.false_eq_true, false_iff]
      omega
    · have hm : (pc - base) % 2 ^ 32 = pc - base :=
        Int.emod_eq_of_lt (by omega) (by omega)
      rw [if_neg h1, hm]
      split_ifs with h2 h3
      · simp only [Bool.false_eq_true, false_iff]
        omega
      · simp only [Bool.false_eq_true, false_iff]
        omega
      · exact iff_of_true rfl (by omega)

/-- Counterexample to claim C2 as stated: with a one-instruction program
loaded at `0x80100`, fetching the out-of-image address `0x80104` and the
misaligned address `0x80101` raises `KeyError`, not the
`InvalidAddressException` the claim requires. -/
theorem c2_counterexample :
    (MMU.load_program 0x80100 (interpretAddrs 0x80100 [("addi", [1, 0], some 5)])).read_ins
        0x80104 = .error PyErr.keyError
    ∧ (MMU.load_program 0x80100 (interpretAddrs 0x80100 [("addi", [1, 0], some 5)])).read_ins
        0x80101 = .error PyErr.keyError
    ∧ PyErr.keyError ≠ PyErr.invalidAddress 0x80104 := by
  refine ⟨rfl, rfl, by decide⟩

/-- Witness for `c2_read_ins_amended` at `base = 0x80100` with a
one-instruction program and the out-of-image address `0x80110`. -/
theorem c2_read_ins_amended_witness :
    (MMU.load_program 0x80100 (interpretAddrs 0x80100 [("addi", [1, 0], some 5)])).read_ins
        0x80110 = .error PyErr.keyError :=
  (c2_read_ins_amended 0x80100 [("addi", [1, 0], some 5)] 0x80110 (by decide)).2.1
    (by decide)

theorem isPrefixOf_append_self (l t : List Char) : l.isPrefixOf (l ++ t) = true := by
  induction l with
  | nil => simp [List.isPrefixOf]
  | cons c cs ih => simpa [List.isPrefixOf] using ih

theorem pyReplaceF_nil (f : Nat) (pat rep : List Char) : pyReplaceF f [] pat rep = [] := by
  cases f <;> rfl

theorem pyReplaceF_fuel_eq (f1 : Nat) :
    ∀ (f2 : Nat) (s pat rep : List Char), s.length ≤ f1 → s.length ≤ f2 →
      pyReplaceF f1 s pat rep = pyReplaceF f2 s pat rep := by
  induction f1 with
  | zero =>
    intro f2 s pat rep h1 _
    have hs : s = [] := List.length_eq_zero.mp (Nat.le_zero.mp h1)
    subst hs
    rw [pyReplaceF_nil, pyReplaceF_nil]
  | succ f1 ih =>
    intro f2 s pat rep h1 h2
    cases s with
    | nil => rw [pyReplaceF_nil, pyReplaceF_nil]
    | cons c rest =>
      cases f2 with
      | zero => exact absurd h2 (by simp)
      | succ f2 =>
        simp only [pyReplaceF]
        by_cases h : pat ≠ [] ∧ pat.isPrefixOf (c :: rest)
        · rw [if_pos h, if_pos h]
          congr 1
          have hp : 0 < pat.length := List.length_pos.mpr h.1
          apply ih
          · simp only [List.length_drop, List.length_cons]
            simp only [List.length_cons] at h1
            omega
          · simp only [List.length_drop, List.length_cons]
            simp only [List.length_cons] at h2
            omega
        · rw [if_neg h, if_neg h]
          congr 1
          apply ih
          · simp only [List.length_cons] at h1
            omega
          · simp only [List.length_cons] at h2
            omega

theorem pyReplace_prefix_step (name suffix rep : List Char) (h : name ≠ []) :
    pyReplace (name ++ suffix) name rep = rep ++ pyReplace suffix name rep := by
  obtain ⟨c, cs, rfl⟩ : ∃ c cs, name = c :: cs := by
    cases name with
    | nil => exact absurd rfl h
    | cons c cs => exact ⟨c, cs, rfl⟩
  show pyReplaceF (((c :: cs) ++ suffix).length) ((c :: cs) ++ suffix) (c :: cs) rep = _
  rw [List.cons_append]
  have hlen : (c :: (cs ++ suffix)).length = (cs ++ suffix).length + 1 := by
    simp [List.length_cons]
  rw [hlen]
  simp only [pyReplaceF]
  rw [if_pos ⟨List.cons_ne_nil c cs,
    by rw [← List.cons_append]; exact isPrefixOf_append_self (c :: cs) suffix⟩]
  congr 1
  have hdrop : (c :: (cs ++ suffix)).drop (c :: cs).length = suffix := by
    rw [← List.cons_append]
    simpa using List.drop_left (c :: cs) suffix
  rw [hdrop]
  exact pyReplaceF_fuel_eq _ _ _ _ _ (by simp) (le_refl _)

theorem strContains_append_self (name suffix : String) (h : name.data ≠ []) :
    strContains (name ++ suffix) name = true := by
  unfold strContains
  have hd : (name ++ suffix).data = name.data ++ suffix.data := String.data_append name suffix
  rw [hd]
  obtain ⟨c, cs, hn⟩ : ∃ c cs, name.data = c :: cs := by
    cases hx : name.data with
    | nil => exact absurd hx h
    | cons c cs => exact ⟨c, cs, rfl⟩
  rw [hn]
  show (((c :: cs).isPrefixOf (c :: cs ++ suffix.data)) || _) = true
  rw [isPrefixOf_append_self (c :: cs) suffix.data]
  rfl

/-- Counterexample to claim C4 as stated: with symbol table
`{"foo": 7}`, the operand token `"foo2"` — in which the symbol occurs
only as a proper substring — is NOT left unchanged: `canonicalize`
rewrites it to `"72"`. -/
theorem c4_counterexample :
    canonicalize ["addi", "x1", "x1", "foo2"] [("foo", 7)]
      = .ok ["addi", "x1", "x1", "72"]
    ∧ ("72" : String) ≠ "foo2" := by
  exact ⟨rfl, by decide⟩

/-- Claim C4 as amended: `resolve_link_addr` is a plain substring
replacement in symbol-table order.  A token containing no symbol name at
all is left unchanged, but a symbol name occurring inside a larger
identifier IS replaced: prefixing any suffix to a symbol name rewrites
the symbol part to `str(value)` and continues on the suffix. -/
theorem c4_resolve_amended :
    (∀ (st : List (String × Int)) (tok : String),
        (∀ p ∈ st, strContains tok p.1 = false) → resolve_link_addr st tok = tok)
    ∧ (∀ (name suffix : String) (v : Int), name.data ≠ [] →
        resolve_link_addr [(name, v)] (name ++ suffix)
          = toString v ++ strReplace suffix name (toString v)) := by
  constructor
  · intro st tok h
    induction st with
    | nil => rfl
    | cons p st ih =>
      have hp := h p (List.mem_cons_self p st)
      unfold resolve_link_addr
      rw [List.foldl_cons]
      have hstep : (if strContains tok p.1 = true then strReplace tok p.1 (toString p.2)
          else tok) = tok := by simp [hp]
      rw [hstep]
      exact ih (fun q hq => h q (List.mem_cons_of_mem p hq))
  · intro name suffix v h
    unfold resolve_link_addr
    rw [List.foldl_cons, List.foldl_nil]
    simp only [strContains_append_self name suffix h, if_true]
    show strReplace (name ++ suffix) name (toString v) = _
    unfold strReplace
    have hd : (name ++ suffix).data = name.data ++ suffix.data := String.data_append name suffix
    rw [hd, pyReplace_prefix_step name.data suffix.data (toString v).data h]
    apply String.ext
    simp [String.data_append]

/-- Witness for `c4_resolve_amended`: symbol `x` valued 5 rewrites the
operand `x2` (register name!) to `str(5) ++ "2"`. -/
theorem c4_resolve_amended_witness :
    resolve_link_addr [("x", (5 : Int))] ("x" ++ "2")
      = toString (5 : Int) ++ strReplace "2" "x" (toString (5 : Int)) :=
  c4_resolve_amended.2 "x" "2" 5 (by decide)

theorem testBit_lt_pow {x n m : Nat} (hx : x < 2 ^ n) (hnm : n ≤ m) :
    x.testBit m = false :=
  Nat.testBit_lt_two_pow (lt_of_lt_of_le hx (Nat.pow_le_pow_right (by norm_num) hnm))

theorem iShiftTable_spec (op : String) (f3 opc f7 : Nat)
    (h : iShiftTable op = some (f3, opc, f7)) :
    f3 < 8 ∧ opc = 0b0010011 ∧ (f7 = 0 ∨ f7 = 32) := by
  unfold iShiftTable at h
  split at h <;> simp_all <;> omega

/-- Counterexample to claim C5 as stated: the encoder masks the shift
amount of `slli x1, x1, 32` to 6 bits, not 5, so bit 25 of the emitted
word is set (under the claimed layout — `imm[4:0]` in the shamt field,
`funct7 = 0` in bits 31:25 — bit 25 would be 0, and the word would equal
that of shamt 0). -/
theorem c5_counterexample :
    parse_I_type_shift "slli" "x1" "x1" 32 = some 0x02009093
    ∧ Nat.testBit 0x02009093 25 = true
    ∧ parse_I_type_shift "slli" "x1" "x1" 32 ≠ parse_I_type_shift "slli" "x1" "x1" 0 := by
  refine ⟨rfl, by decide, by decide⟩

/-- Claim C5 as amended: the shift-immediate encoder uses `imm[5:0]`
(mask `& 0x3F`): the word depends on the immediate only through
`imm % 64`, bits 25:20 hold `imm[5:0]` and bits 31:26 hold `funct7 >> 1`
(`funct7`'s bit 0 is 0 for all three opcodes, so bit 25 belongs to the
shift amount).  The `slli` handler masks its shift count to the low FIVE
bits (`slli_shamt 32 = 0`), but dispatching `slli` on a
`TranslatableInstruction` raises `AttributeError` at
`ASSERT_LEN(ins.args, 3)` before any shift happens. -/
theorem c5_shift_amended :
    ∀ (op rd rs1 : String) (imm : Int) (f3 opc f7 rdn rs1n w : Nat),
      iShiftTable op = some (f3, opc, f7) →
      extract_reg_num rd = some rdn → rdn < 32 →
      extract_reg_num rs1 = some rs1n → rs1n < 32 →
      parse_I_type_shift op rd rs1 imm = some w →
      (parse_I_type_shift op rd rs1 imm = parse_I_type_shift op rd rs1 (imm % 2 ^ 6))
      ∧ (∀ j, j < 6 → w.testBit (20 + j) = ((imm % 2 ^ 6).toNat).testBit j)
      ∧ (∀ j, j < 6 → w.testBit (26 + j) = (f7 >>> 1).testBit j)
      ∧ slli_shamt 32 = 0
      ∧ (∀ (s : CPUState) (ins : TranslatableInstruction),
          instruction_slli s ins = (s, some PyErr.attributeError)) := by
  intro op rd rs1 imm f3 opc f7 rdn rs1n w hop hrd hrdn hrs1 hrs1n hw
  obtain ⟨hf3, hopc, hf7⟩ := iShiftTable_spec op f3 opc f7 hop
  subst hopc
  have hper : parse_I_type_shift op rd rs1 imm
      = parse_I_type_shift op rd rs1 (imm % 2 ^ 6) := by
    unfold parse_I_type_shift
    rw [hop, Int.emod_emod_of_dvd _ (by norm_num : (2 ^ 6 : Int) ∣ 2 ^ 6)]
  unfold parse_I_type_shift at hw
  rw [hop, hrd, hrs1] at hw
  obtain rfl : _ = w := Option.some.inj hw
  set m : Nat := (imm % 2 ^ 6).toNat with hmdef
  have hm : m < 64 := by
    have h1 : 0 ≤ imm % 2 ^ 6 := Int.emod_nonneg _ (by norm_num)
    have h2 : imm % 2 ^ 6 < 2 ^ 6 := Int.emod_lt_of_pos _ (by norm_num)
    omega
  have hmb : ∀ k, 6 ≤ k → m.testBit k = false := fun k hk => testBit_lt_pow hm hk
  have hrs1b : ∀ k, 5 ≤ k → rs1n.testBit k = false := fun k hk => testBit_lt_pow hrs1n hk
  have hrdb : ∀ k, 5 ≤ k → rdn.testBit k = false := fun k hk => testBit_lt_pow hrdn hk
  have hf3b : ∀ k, 3 ≤ k → f3.testBit k = false := fun k hk => testBit_lt_pow hf3 hk
  have hopcb : ∀ k, 5 ≤ k → Nat.testBit 0b0010011 k = false :=
    fun k hk => testBit_lt_pow (by norm_num) hk
  have hf7bit : f7.testBit 0 = false := by
    rcases hf7 with rfl | rfl <;> decide
  have hf7b : ∀ k, 6 ≤ k → f7.testBit k = false := by
    rcases hf7 with rfl | rfl
    · intro k _; exact Nat.zero_testBit k
    · intro k hk; exact testBit_lt_pow (by norm_num) hk
  refine ⟨hper, ?_, ?_, by decide, fun s ins => rfl⟩
  · intro j hj
    interval_cases j <;>
      simp [Nat.testBit_lor, Nat.testBit_shiftLeft, hrs1b, hrdb, hf3b, hopcb, hf7bit]
  · intro j hj
    interval_cases j <;>
      simp [Nat.testBit_lor, Nat.testBit_shiftLeft, Nat.testBit_shiftRight,
        hmb, hrs1b, hrdb, hf3b, hopcb]

/-- Witness for `c5_shift_amended` at `slli x1, x2, 33`
(word `0x02111093`). -/
theorem c5_shift_amended_witness :
    Nat.testBit 0x02111093 23 = (((33 : Int) % 2 ^ 6).toNat).testBit 3
    ∧ slli_shamt 32 = 0 := by
  have h := c5_shift_amended "slli" "x1" "x2" 33 1 0b0010011 0 1 2 0x02111093
    rfl rfl (by norm_num) rfl (by norm_num) rfl
  exact ⟨h.2.1 3 (by norm_num), h.2.2.2.1⟩

theorem dictSet_lookup (l : List (String × Int)) (k : String) (v : Int) :
    (dictSet l k v).lookup k = some v := by
  induction l with
  | nil => simp [dictSet, List.lookup]
  | cons p rest ih =>
    obtain ⟨k', v'⟩ := p
    by_cases h : k' = k
    · simp [dictSet, h, List.lookup]
    · simp only [dictSet, if_neg h, List.lookup]
      rw [show (k == k') = false from beq_eq_false_iff_ne.mpr (fun he => h he.symm)]
      exact ih

theorem processTranslatable_shape :
    ∀ (ls : List String) (s s' : PreSt), processTranslatable s ls = .ok s' →
      ∃ t, s'.mnemonics = s.mnemonics ++ t ∧ s'.cnt = s.cnt + t.length := by
  intro ls
  induction ls with
  | nil =>
    intro s s' h
    cases h
    exact ⟨[], by simp, by simp⟩
  | cons l ls ih =>
    intro s s' h
    unfold processTranslatable at h
    split at h
    · exact Except.noConfusion h
    · split at h
      · exact Except.noConfusion h
      · obtain ⟨t, hm, hc⟩ := ih _ _ h
        refine ⟨normSpaces l :: t, ?_, ?_⟩
        · simpa [List.append_assoc] using hm
        · simp only [hc]
          simp [List.length_cons]
          omega

theorem handle_directives_shape (ev : String → Option Int) (s : PreSt)
    (n a : String) (s' : PreSt) (h : handle_directives ev s n a = .ok s') :
    s'.mnemonics = s.mnemonics ∧ s'.cnt = s.cnt := by
  unfold handle_directives at h
  split at h
  · split at h
    · split at h
      · cases h; exact ⟨rfl, rfl⟩
      · exact Except.noConfusion h
    · exact Except.noConfusion h
  · cases h; exact ⟨rfl, rfl⟩

theorem preprocLine_shape (ev : String → Option Int) (base : Int) (s : PreSt)
    (l : String) (s' : PreSt) (h : preprocLine ev base s l = .ok s') :
    ∃ t, s'.mnemonics = s.mnemonics ++ t ∧ s'.cnt = s.cnt + t.length := by
  simp only [preprocLine] at h
  by_cases h0 : stripComment l = ""
  · rw [if_pos h0] at h
    cases h
    exact ⟨[], by simp, by simp⟩
  · rw [if_neg h0] at h
    by_cases h1 : s.inMac
    · rw [if_pos h1] at h
      by_cases h2 : matchEndm (stripComment l)
      · rw [if_pos h2] at h
        cases h
        exact ⟨[], by simp, by simp⟩
      · rw [if_neg h2] at h
        cases h
        exact ⟨[], by simp, by simp⟩
    · rw [if_neg h1] at h
      cases hmd : matchMacDef (stripComment l) with
      | some p =>
        obtain ⟨name, args⟩ := p
        simp only [hmd] at h
        cases h
        exact ⟨[], by simp, by simp⟩
      | none =>
        simp only [hmd] at h
        cases hdir : matchDirective (stripComment l) with
        | some p =>
          obtain ⟨dname, dargs⟩ := p
          simp only [hdir] at h
          obtain ⟨hm, hc⟩ := handle_directives_shape ev s dname dargs s' h
          exact ⟨[], by simp [hm], by simp [hc]⟩
        | none =>
          simp only [hdir] at h
          cases hlab : matchLabel (stripComment l) with
          | some lname =>
            simp only [hlab] at h
            cases h
            exact ⟨[], by simp, by simp⟩
          | none =>
            simp only [hlab] at h
            exact processTranslatable_shape _ s s' h

theorem preprocList_shape (ev : String → Option Int) (base : Int) :
    ∀ (lines : List String) (s s' : PreSt), preprocList ev base s lines = .ok s' →
      ∃ t, s'.mnemonics = s.mnemonics ++ t ∧ s'.cnt = s.cnt + t.length := by
  intro lines
  induction lines with
  | nil =>
    intro s s' h
    cases h
    exact ⟨[], by simp, by simp⟩
  | cons l ls ih =>
    intro s s' h
    unfold preprocList at h
    split at h
    · exact Except.noConfusion h
    · rename_i smid hline
      obtain ⟨t1, hm1, hc1⟩ := preprocLine_shape ev base s l smid hline
      obtain ⟨t2, hm2, hc2⟩ := ih smid s' h
      exact ⟨t1 ++ t2, by simp [hm2, hm1], by simp [hc2, hc1]; omega⟩

theorem interpretAddrs_get? {α : Type} :
    ∀ (l : List α) (b : Int) (k : Nat),
      (interpretAddrs b l).get? k = (l.get? k).map (fun m => (b + 4 * (k : Int), m)) := by
  intro l
  induction l with
  | nil => intro b k; simp [interpretAddrs]
  | cons x xs ih =>
    intro b k
    cases k with
    | zero => simp [interpretAddrs]
    | succ k =>
      simp only [interpretAddrs, List.get?]
      rw [ih (b + 4) k]
      cases xs.get? k <;> simp <;> push_cast <;> ring_nf

/-- Claim C7: when the preprocessor reaches a label line (a line that,
after comment stripping, matches neither the macro-definition nor the
directive pattern but matches `^(\w+):...`, with the machine outside a
macro body), the label is recorded at
`base_addr + 4 · (number of translatable instructions emitted so far)`.
Provided no later line redefines the symbol (the lookup-preservation
hypothesis), the final symbol table maps `L` to exactly that address;
the label line itself emits nothing, every later emission only appends,
and the next mnemonic emitted — index `|mnemonics|` of the final list —
is placed by `_Parser.interpret` at that very address.  Blank lines,
comment lines and other labels in `pre`/`post` are covered by the
quantification, since they leave the emission count unchanged. -/
theorem c7_label_addresses :
    ∀ (ev : String → Option Int) (base : Int) (pre post : List String)
      (l L : String) (s s' s'' : PreSt),
      preprocList ev base PreSt.start pre = .ok s →
      s.inMac = false →
      matchMacDef (stripComment l) = none →
      matchDirective (stripComment l) = none →
      matchLabel (stripComment l) = some L →
      preprocLine ev base s l = .ok s' →
      preprocList ev base s' post = .ok s'' →
      s''.symtab.lookup L = s'.symtab.lookup L →
      s''.symtab.lookup L = some (base + 4 * (s.mnemonics.length : Int))
      ∧ s'.mnemonics = s.mnemonics
      ∧ (∃ t, s''.mnemonics = s.mnemonics ++ t)
      ∧ (∀ m, s''.mnemonics.get? s.mnemonics.length = some m →
          (interpretAddrs base s''.mnemonics).get? s.mnemonics.length
            = some (base + 4 * (s.mnemonics.length : Int), m)) := by
  intro ev base pre post l L s s' s'' hpre hmac0 hmd hdir hlab hline hpost heq
  have hlabempty : matchLabel "" = none := by decide
  have h0 : stripComment l ≠ "" := by
    intro hc
    rw [hc, hlabempty] at hlab
    exact Option.noConfusion hlab
  obtain ⟨t0, hm0, hc0⟩ := preprocList_shape ev base pre PreSt.start s hpre
  have hcnt : s.cnt = s.mnemonics.length := by
    simp only [PreSt.start, List.nil_append] at hm0
    simp only [PreSt.start, Nat.zero_add] at hc0
    rw [hm0, hc0]
  simp only [preprocLine] at hline
  rw [if_neg h0] at hline
  rw [if_neg (by simp [hmac0])] at hline
  simp only [hmd, hdir, hlab] at hline
  cases hline
  refine ⟨?_, rfl, ?_, ?_⟩
  · rw [heq]
    show (dictSet s.symtab L (base + 4 * (s.cnt : Int))).lookup L = _
    rw [dictSet_lookup, hcnt]
  · obtain ⟨t, hm, _⟩ := preprocList_shape ev base post _ s'' hpost
    exact ⟨t, by simpa using hm⟩
  · intro m hm
    rw [interpretAddrs_get?, hm]
    rfl

/-- Witness for `c7_label_addresses`: base `0x80100`, one instruction
before the label (separated from it by a blank and a comment line), the
label line `loop: addi x9, x9, 9`, and one instruction after it.  The
label maps to `0x80104 = base + 4·1`, the address `interpret` gives the
next emitted instruction.  (The `addi x9, x9, 9` on the label's own line
is consumed by the label pattern's trailing `(.*)` and emits nothing.) -/
theorem c7_label_addresses_witness :
    List.lookup "loop"
        ((⟨false, "", [], [], [], [("loop", 0x80104)], 2,
          ["addi x1, x1, 1", "addi x2, x2, 2"]⟩ : PreSt).symtab)
      = some (0x80100 + 4 * ((["addi x1, x1, 1"] : List String).length : Int)) := by
  have h := c7_label_addresses (fun _ => none) 0x80100
    ["addi x1, x1, 1", "", "# note"] ["", "addi x2, x2, 2"]
    "loop: addi x9, x9, 9" "loop"
    ⟨false, "", [], [], [], [], 1, ["addi x1, x1, 1"]⟩
    ⟨false, "", [], [], [], [("loop", 0x80104)], 1, ["addi x1, x1, 1"]⟩
    ⟨false, "", [], [], [], [("loop", 0x80104)], 2, ["addi x1, x1, 1", "addi x2, x2, 2"]⟩
    (by decide) rfl (by decide) (by decide) (by decide) (by decide) (by decide) (by decide)
  exact h.1
